import Mathlib

/-!
Verification of the process execution & supervision helpers of finit
(`src/helpers.c`).  C strings are modelled as `List Char` (one `Char` per
byte, no embedded NUL), machine integers as `Nat`/`Int` with explicit
`% 2 ^ w` where wrap-around matters, and the OS interface (fork, waitpid,
readdir, /proc, the filesystem) as explicit inputs to the embedded
functions.
-/

namespace Finit

/-! ### Wait-status model (`run`, helpers.c lines 460-488)

Linux encodes a wait status as a 16-bit value: a normal exit with code `c`
is `(c & 0xff) << 8`; termination by signal `s` (1 ≤ s ≤ 126) is
`s | (core ? 0x80 : 0)`.  `WIFEXITED(st)` is `(st & 0x7f) == 0`,
`WIFSIGNALED(st)` holds when the low 7 bits are neither 0 nor 0x7f, and
`WEXITSTATUS(st)` is `(st >> 8) & 0xff`. -/

/-- Terminal state of the child reaped by `waitpid` in `run`. -/
inductive ChildOutcome where
  | exited (code : Nat)
  | signaled (sig : Nat) (core : Bool)
  deriving DecidableEq

/-- Kernel encoding of a wait status, as decoded by the `W*` macros. -/
def encodeStatus : ChildOutcome → Nat
  | .exited c => (c % 256) * 256
  | .signaled s core => s % 128 + (if core then 128 else 0)

/-- Model of the `WEXITSTATUS` macro. -/
def WEXITSTATUS (st : Nat) : Nat := (st / 256) % 256

/-- Result computation of `run` after `waitpid` succeeds (helpers.c lines
474-483): `result = WEXITSTATUS(status)`; when `WIFSIGNALED(status)` and
`result` is zero, `result` is forced to 1. -/
def run_wait_result (st : Nat) : Nat :=
  let result := WEXITSTATUS st
  if st % 128 = 0 then
    result
  else if st % 128 ≠ 127 then
    if result = 0 then 1 else result
  else
    result

/-- Value returned by `run` for a given terminal state of its child. -/
def run_result (oc : ChildOutcome) : Nat :=
  run_wait_result (encodeStatus oc)

/-- C1: mapping of a child's terminal state to `run`'s return value:
a normal exit yields the child's exit code, while death by any signal
(1..126, with or without core dump) yields the fixed nonzero code 1, so a
caller comparing against zero never sees success for a killed child. -/
theorem run_result_mapping (c s : Nat) (core : Bool)
    (hc : c < 256) (hs1 : 1 ≤ s) (hs2 : s ≤ 126) :
    run_result (ChildOutcome.exited c) = c ∧
    run_result (ChildOutcome.signaled s core) = 1 ∧
    run_result (ChildOutcome.signaled s core) ≠ 0 := by
  cases core <;>
    simp only [run_result, encodeStatus, run_wait_result, WEXITSTATUS] <;>
    split_ifs <;> omega

/-- Witness for C1 at exit code 7 and signal 9. -/
theorem run_result_mapping_inst :
    run_result (ChildOutcome.exited 7) = 7 ∧
    run_result (ChildOutcome.signaled 9 false) = 1 ∧
    run_result (ChildOutcome.signaled 9 false) ≠ 0 :=
  run_result_mapping 7 9 false (by decide) (by decide) (by decide)

/-! ### Command-line tokenizer of `run` (helpers.c lines 398-432)

`run` duplicates the command string and splits it in place with `strsep`.
The current read position `arg` is modelled as the suffix of the buffer it
points to; `none` as result of an embedded step models undefined behaviour
(dereferencing a NULL or dangling `arg`), which no claim exercises. -/

/-- Model of one `strsep(&arg, delims)` call: the returned token runs up to
the first delimiter (which is overwritten by NUL); the second component is
the new value of `arg` — `none` when no delimiter was found (C sets the
pointer to NULL after consuming the whole string). -/
def strsepCut (delims : Char → Bool) : List Char → List Char × Option (List Char)
  | [] => ([], none)
  | c :: rest =>
    if delims c then
      ([], some rest)
    else
      let r := strsepCut delims rest
      (c :: r.1, r.2)

/-- Delimiter set `"\t "` used for plain tokens. -/
def wsDelim (c : Char) : Bool := c = '\t' || c = ' '

/-- Quote test `*arg == '\'' || *arg == '"'` opening a quoted token. -/
def quoteChar (c : Char) : Bool := c = '\'' || c = '"'

/-- NUM_ARGS from helpers.c. -/
def NUM_ARGS : Nat := 16

/-- Loop body of the tokenizer (the `do { ... } while (arg && i < NUM_ARGS)`
loop).  `arg` is the suffix at the current pointer, `i` the number of argv
slots already filled, `acc` their contents.  In the quote branch the token
keeps the opening quote (the slot is set to `arg` before skipping it), the
closing quote is written back over the NUL that `strsep` produced
(`*p = *delim`), and the character right after the closing quote is
overwritten by NUL (`*arg++ = 0`), hence dropped from the remainder.  The
returned Bool records whether `arg` was still non-NULL when the loop left
(tokens remained unconsumed).  `none` models undefined behaviour: an
unterminated quote (`p = arg - 1` with `arg` NULL) or a read through a
dangling pointer. -/
def tokLoop : Nat → List Char → Nat → List (List Char) →
    Option (List (List Char) × Bool)
  | 0, _, _, _ => none
  | fuel + 1, arg, i, acc =>
    match arg with
    | q :: rest =>
      if quoteChar q then
        match strsepCut (fun c => c = q) rest with
        | (_, none) => none
        | (span, some r) =>
          let tok := q :: (span ++ [q])
          match r with
          | [] =>
            if i + 1 < NUM_ARGS then none
            else some (acc ++ [tok], true)
          | _ :: r2 =>
            if i + 1 < NUM_ARGS then tokLoop fuel r2 (i + 1) (acc ++ [tok])
            else some (acc ++ [tok], true)
      else
        match strsepCut wsDelim arg with
        | (tok, none) => some (acc ++ [tok], false)
        | (tok, some r) =>
          if i + 1 < NUM_ARGS then tokLoop fuel r (i + 1) (acc ++ [tok])
          else some (acc ++ [tok], true)
    | [] =>
      some (acc ++ [[]], false)

/-- Tokenization phase of `run`: the first `strsep` fills `args[0]`, then
the do-while loop processes the rest.  When the command holds no tab or
space at all, the first `strsep` sets `arg` to NULL and the loop body
dereferences it — undefined behaviour, `none`. -/
def run_tokenize (cmd : List Char) : Option (List (List Char) × Bool) :=
  match strsepCut wsDelim cmd with
  | (_, none) => none
  | (t0, some r) => tokLoop (cmd.length + 1) r 1 [t0]

/-- Argument vector produced by `run` for a command line, as strings. -/
def run_argv (cmd : String) : Option (List String) :=
  (run_tokenize cmd.toList).map (fun p => p.1.map List.asString)

/-- C2 counterexample: the quoted token is NOT stripped of its quote
characters — tokenizing `su -c "dbus-daemon --system" messagebus` does not
yield `["su","-c","dbus-daemon --system","messagebus"]` (the third token
keeps both quotes, as the comment in helpers.c itself shows). -/
theorem run_tokenize_quotes_not_stripped :
    run_argv "su -c \"dbus-daemon --system\" messagebus" ≠
      some ["su", "-c", "dbus-daemon --system", "messagebus"] := by
  decide

/-- C2 amended: a token beginning with `'` or `"` extends to the matching
quote and retains both quote characters; the two example command lines
tokenize accordingly. -/
theorem run_tokenize_quotes_kept :
    run_argv "su -c \"dbus-daemon --system\" messagebus" =
      some ["su", "-c", "\"dbus-daemon --system\"", "messagebus"] ∧
    run_argv "echo hello" = some ["echo", "hello"] := by
  constructor <;> decide

/-! ### The dead argument-overflow check of `run` (helpers.c lines 421-432)

After the loop, `run` executes `args[i] = NULL;` and only then tests
`if (i == NUM_ARGS && args[i])`.  The slot it tests is the one it has just
set to NULL, so the `EOVERFLOW`/`return 1` branch can never be taken. -/

/-- Reading of `args[k]` after the loop and the `args[i] = NULL`
assignment: slots `0 .. i-1` hold the collected tokens, slot `i` holds
NULL. -/
def argvSlot (toks : List (List Char)) (k : Nat) : Option (List Char) :=
  if k < toks.length then toks.get? k else none

/-- Condition of the "Command too long" branch,
`i == NUM_ARGS && args[i]`, evaluated after `args[i] = NULL`. -/
def run_overflow_flag (toks : List (List Char)) : Bool :=
  decide (toks.length = NUM_ARGS) && (argvSlot toks toks.length).isSome

/-- Seventeen whitespace-separated tokens: one more than NUM_ARGS. -/
def longCmd : String := "a b c d e f g h i j k l m n o p q"

/-- C5: the overflow guard is dead code, so a 17-token command line is
silently truncated.  The first conjunct shows the guard is false for every
possible argv (the tested slot was just set to NULL); the rest evaluates
`run` on a 17-token command: the loop stops after filling all 16 slots
with `arg` still non-NULL (the token `"q"` unconsumed), the guard still
yields false, and `run` proceeds to fork with the truncated argv instead
of setting `EOVERFLOW` and returning 1. -/
theorem run_overflow_check_dead :
    (∀ toks : List (List Char), run_overflow_flag toks = false) ∧
    run_tokenize longCmd.toList =
      some ([['a'], ['b'], ['c'], ['d'], ['e'], ['f'], ['g'], ['h'],
             ['i'], ['j'], ['k'], ['l'], ['m'], ['n'], ['o'], ['p']], true) ∧
    run_overflow_flag [['a'], ['b'], ['c'], ['d'], ['e'], ['f'], ['g'], ['h'],
             ['i'], ['j'], ['k'], ['l'], ['m'], ['n'], ['o'], ['p']] = false := by
  refine ⟨fun toks => ?_, by decide, by decide⟩
  simp [run_overflow_flag, argvSlot]

/-! ### Pre-exec behaviour of the forked children (C3, C9)

The statements each child executes between `fork` and `exec`/`exit` are
embedded as explicit action traces, in source order. -/

/-- Observable actions of a freshly forked child. -/
inductive Action where
  | resetSig (n : Nat)
  | redirectStdio
  | execCall
  | exitCall (code : Nat)
  | vhangup
  | openConsole
  | unblockSigchld
  | setProcName
  | runCmd
  | debugLog
  deriving DecidableEq

/-- Modelled from the spec: the `DFLSIG(sa, i, 0)` macro comes from
`sig.h`, which is not part of this source tree; per the spec ("the child
resets the disposition of every signal number to default") it installs the
default disposition for signal `i`.  The loop `for (i = 1; i < NSIG; i++)`
emits one reset per signal number `1 .. NSIG-1`. -/
def sigResets (nsig : Nat) : List Action :=
  (List.range' 1 (nsig - 1)).map Action.resetSig

/-- Trace of the child forked by `run` (helpers.c lines 436-454): signal
resets, optional stdio redirection to /dev/null (when the `fopen` of
/dev/null succeeded), `execvp`, and `_exit(1)` reached only when the exec
fails. -/
def run_child_actions (nsig : Nat) (fpOk : Bool) : List Action :=
  sigResets nsig ++ ((if fpOk then [Action.redirectStdio] else []) ++
    [Action.execCall, Action.exitCall 1])

/-- Trace of the child forked by `run_getty` (helpers.c lines 533-584):
`vhangup`, closing and reattaching the console (exit 1 when the console
device cannot be opened), unblocking SIGCHLD, resetting every signal
disposition, stdio duplication, renaming the process, then the console
loop which invokes `run(cmd)` (marker `runCmd`). -/
def run_getty_child_actions (nsig : Nat) (consoleOk : Bool) : List Action :=
  [Action.vhangup, Action.openConsole] ++
    (if consoleOk then
      [Action.unblockSigchld] ++ (sigResets nsig ++
        [Action.redirectStdio, Action.setProcName, Action.runCmd])
    else [Action.exitCall 1])

/-- Trace of the child forked by `run_parts` (helpers.c lines 647-652):
a debug log, `execv`, and `exit(0)` reached only when the exec fails.
No signal disposition is touched. -/
def run_parts_child_actions : List Action :=
  [Action.debugLog, Action.execCall, Action.exitCall 0]

/-- C3 counterexample: the child forked by `run_parts` execs without
resetting any signal disposition — e.g. signal 2 (SIGINT) is never reset
even though the child does reach `execv`. -/
theorem run_parts_child_no_sigreset :
    Action.resetSig 2 ∉ run_parts_child_actions ∧
    Action.execCall ∈ run_parts_child_actions := by
  decide

/-- Helper: an element of a prefix wholly satisfying `p` survives
`takeWhile p` over an appended list. -/
theorem mem_takeWhile_of_mem_pos {α : Type} {p : α → Bool} {l₁ l₂ : List α}
    {x : α} (hmem : x ∈ l₁) (hpos : ∀ a ∈ l₁, p a) :
    x ∈ (l₁ ++ l₂).takeWhile p := by
  rw [List.takeWhile_append_of_pos hpos]
  exact List.mem_append_left _ hmem

/-- Helper: `takeWhile p` over an appended list keeps what it keeps of the
second part when the first part wholly satisfies `p`. -/
theorem mem_takeWhile_append_right {α : Type} {p : α → Bool} {l₁ l₂ : List α}
    {x : α} (hpos : ∀ a ∈ l₁, p a) (h : x ∈ l₂.takeWhile p) :
    x ∈ (l₁ ++ l₂).takeWhile p := by
  rw [List.takeWhile_append_of_pos hpos]
  exact List.mem_append_right _ h

/-- Membership of a reset action in the reset loop's trace. -/
theorem resetSig_mem_sigResets {n nsig : Nat} (h1 : 1 ≤ n) (h2 : n < nsig) :
    Action.resetSig n ∈ sigResets nsig := by
  simp only [sigResets, List.mem_map]
  refine ⟨n, ?_, rfl⟩
  rw [List.mem_range'_1]
  omega

/-- C3 amended: the children forked by `run` and by `run_getty` reset every
signal disposition `1 .. NSIG-1` to default before reaching `exec`
(respectively before the console loop that spawns the login command),
but the child forked by `run_parts` performs no signal reset at all before
its `execv`. -/
theorem child_sigreset_before_exec (nsig n : Nat) (fpOk : Bool)
    (h1 : 1 ≤ n) (h2 : n < nsig) :
    Action.resetSig n ∈
      (run_child_actions nsig fpOk).takeWhile
        (fun a => decide (a ≠ Action.execCall)) ∧
    Action.resetSig n ∈
      (run_getty_child_actions nsig true).takeWhile
        (fun a => decide (a ≠ Action.runCmd)) ∧
    Action.resetSig n ∉ run_parts_child_actions := by
  refine ⟨?_, ?_, by simp [run_parts_child_actions]⟩
  · unfold run_child_actions
    refine mem_takeWhile_of_mem_pos (resetSig_mem_sigResets h1 h2) ?_
    simp only [sigResets, List.mem_map]
    rintro a ⟨k, -, rfl⟩
    simp
  · unfold run_getty_child_actions
    rw [if_pos rfl]
    refine mem_takeWhile_append_right (by simp) ?_
    refine mem_takeWhile_append_right (by simp) ?_
    refine mem_takeWhile_of_mem_pos (resetSig_mem_sigResets h1 h2) ?_
    simp only [sigResets, List.mem_map]
    rintro a ⟨k, -, rfl⟩
    simp

/-- Witness for C3's amended theorem at NSIG = 32, signal 2, with stdio
redirection active. -/
theorem child_sigreset_before_exec_inst :
    Action.resetSig 2 ∈
      (run_child_actions 32 true).takeWhile
        (fun a => decide (a ≠ Action.execCall)) ∧
    Action.resetSig 2 ∈
      (run_getty_child_actions 32 true).takeWhile
        (fun a => decide (a ≠ Action.runCmd)) ∧
    Action.resetSig 2 ∉ run_parts_child_actions :=
  child_sigreset_before_exec 32 2 true (by decide) (by decide)

/-! ### `run_parts` (helpers.c lines 595-661) and its comparator `cmp`
(lines 590-593)

Directory entries are modelled with the fields `run_parts` inspects:
`d_name`, the `DT_REG` flag, whether `stat` succeeds, and the `S_IXUSR`
bit of `st_mode`. -/

/-- Three-way byte comparison underlying `strcmp` (the C standard compares
as `unsigned char`).  At the end of a string C compares the NUL terminator
against the other string's next byte; since a modelled C string holds no
NUL byte, the result's sign there is fixed and is embedded directly as
`-1`/`1`. -/
def strcmp3 : List Char → List Char → Int
  | [], [] => 0
  | [], _ :: _ => -1
  | _ :: _, [] => 1
  | a :: as, b :: bs =>
    if a.toNat < b.toNat then -1
    else if b.toNat < a.toNat then 1
    else strcmp3 as bs

/-- Nonpositive `strcmp`, the order `qsort(ent, num, sizeof(char *), cmp)`
sorts by. -/
def strle (a b : List Char) : Prop := strcmp3 a b ≤ 0

instance : DecidableRel strle := fun a b =>
  inferInstanceAs (Decidable (strcmp3 a b ≤ 0))

theorem strcmp3_antisymm : ∀ a b : List Char, strcmp3 a b = -strcmp3 b a := by
  intro a
  induction a with
  | nil =>
    intro b
    cases b <;> simp [strcmp3]
  | cons x xs ih =>
    intro b
    cases b with
    | nil => simp [strcmp3]
    | cons y ys =>
      simp only [strcmp3]
      split_ifs <;> first | omega | exact ih ys

theorem strcmp3_trans_nonpos :
    ∀ a b c : List Char, strcmp3 a b ≤ 0 → strcmp3 b c ≤ 0 → strcmp3 a c ≤ 0 := by
  intro a
  induction a with
  | nil =>
    intro b c _ _
    cases c with
    | nil => simp [strcmp3]
    | cons z zs => simp [strcmp3]
  | cons x xs ih =>
    intro b c hab hbc
    cases b with
    | nil => simp [strcmp3] at hab
    | cons y ys =>
      cases c with
      | nil => simp [strcmp3] at hbc
      | cons z zs =>
        simp only [strcmp3] at hab hbc ⊢
        split_ifs at hab hbc ⊢ <;>
          first | omega | exact ih ys zs hab hbc

instance : IsTotal (List Char) strle where
  total a b := by
    by_cases h : strcmp3 a b ≤ 0
    · exact Or.inl h
    · right
      have := strcmp3_antisymm a b
      unfold strle
      omega

instance : IsTrans (List Char) strle where
  trans a b c := strcmp3_trans_nonpos a b c

/-- NUM_SCRIPTS from helpers.c. -/
def NUM_SCRIPTS : Nat := 128

/-- A directory entry as `run_parts` sees it: `d_name`, whether
`d_type == DT_REG`, whether `stat(e->d_name, &st)` returns 0, and the
`st.st_mode & S_IXUSR` bit. -/
structure DirEnt where
  name : List Char
  isReg : Bool
  statOk : Bool
  execOwner : Bool
  deriving DecidableEq

/-- Filter applied by the readdir loop of `run_parts` (helpers.c lines
620-629): regular file, successful `stat`, owner-executable. -/
def qualifies (e : DirEnt) : Bool := e.isReg && e.statOk && e.execOwner

/-- The readdir collection loop: qualifying names are appended to `ent`
(`ent[num++] = strdup(e->d_name)`), and the loop breaks once
`num >= NUM_SCRIPTS`. -/
def collectScripts (num : Nat) : List DirEnt → List (List Char)
  | [] => []
  | e :: rest =>
    if qualifies e then
      if num + 1 ≥ NUM_SCRIPTS then [e.name]
      else e.name :: collectScripts (num + 1) rest
    else collectScripts num rest

/-- Order in which `run_parts` executes the collected scripts: the `qsort`
call sorts with comparator `cmp` (strcmp), then the sequential
fork/execv/waitpid loop runs them in list order, each child fully reaped
(`waitpid(pid, &status, 0)`) before the next `fork`. -/
def run_parts_exec_order (entries : List DirEnt) : List (List Char) :=
  List.insertionSort strle (collectScripts 0 entries)

/-- When the readdir scan meets at most NUM_SCRIPTS qualifying entries,
the collection loop keeps exactly the qualifying names in scan order. -/
theorem collectScripts_eq (entries : List DirEnt) :
    ∀ num : Nat, num + (entries.filter qualifies).length ≤ NUM_SCRIPTS →
    collectScripts num entries = (entries.filter qualifies).map DirEnt.name := by
  induction entries with
  | nil => intro num _; rfl
  | cons e rest ih =>
    intro num hle
    by_cases hq : qualifies e
    · rw [List.filter_cons_of_pos hq] at hle ⊢
      simp only [List.length_cons] at hle
      simp only [collectScripts, if_pos hq, List.map_cons]
      by_cases hcap : num + 1 ≥ NUM_SCRIPTS
      · rw [if_pos hcap]
        have hzero : (rest.filter qualifies).length = 0 := by omega
        rw [List.length_eq_zero] at hzero
        rw [hzero]
        rfl
      · rw [if_neg hcap, ih (num + 1) (by omega)]
    · rw [List.filter_cons_of_neg hq] at hle ⊢
      simp only [collectScripts, if_neg hq]
      exact ih num hle

/-- The directory of the worked example: entries `S02b`, `S01a`, `README`
in readdir order, all regular with successful `stat`, `README` without the
owner-executable bit. -/
def demoEntries : List DirEnt :=
  [⟨"S02b".toList, true, true, true⟩,
   ⟨"S01a".toList, true, true, true⟩,
   ⟨"README".toList, true, true, false⟩]

/-- C4: when every `stat` succeeds and at most NUM_SCRIPTS entries
qualify, `run_parts` executes exactly the regular owner-executable files
(a permutation fact), in `strcmp`-sorted order, one child fully waited for
before the next; on the example directory it runs exactly `S01a` then
`S02b`, skipping `README`. -/
theorem run_parts_sorted_exec (entries : List DirEnt)
    (hstat : ∀ e ∈ entries, e.statOk = true)
    (hcap : (entries.filter (fun e => e.isReg && e.execOwner)).length ≤ NUM_SCRIPTS) :
    (run_parts_exec_order entries).Perm
      ((entries.filter (fun e => e.isReg && e.execOwner)).map DirEnt.name) ∧
    (run_parts_exec_order entries).Sorted strle ∧
    run_parts_exec_order demoEntries = ["S01a".toList, "S02b".toList] := by
  have hfeq : entries.filter qualifies =
      entries.filter (fun e => e.isReg && e.execOwner) := by
    apply List.filter_congr
    intro e he
    simp [qualifies, hstat e he]
  refine ⟨?_, ?_, by decide⟩
  · rw [run_parts_exec_order,
      collectScripts_eq entries 0 (by rw [hfeq]; omega), hfeq]
    exact List.perm_insertionSort strle _
  · exact List.sorted_insertionSort strle _

/-- Witness for C4 at the example directory. -/
theorem run_parts_sorted_exec_inst :
    (run_parts_exec_order demoEntries).Perm
      ((demoEntries.filter (fun e => e.isReg && e.execOwner)).map DirEnt.name) ∧
    (run_parts_exec_order demoEntries).Sorted strle ∧
    run_parts_exec_order demoEntries = ["S01a".toList, "S02b".toList] :=
  run_parts_sorted_exec demoEntries (by decide) (by decide)

/-! ### Working-directory effect of `run_parts` (helpers.c lines 606-661)

`run_parts` saves `oldpwd = getcwd(NULL, 0)` and then follows one of four
exit paths.  `getcwd` is assumed to succeed (its NULL-failure path is not
part of any claim).  The pair returned below is (return value, process
working directory after the call). -/

/-- Exit paths of `run_parts` and the working directory each one leaves
behind: `chdir(dir)` failing returns -1 with the cwd untouched; `opendir`
failing returns -1 with the cwd already changed to `dir` and never
restored; an empty collection returns 0, also without restoring; only the
path that runs at least one script executes `chdir(oldpwd)` at the end. -/
def run_parts_cwd (orig dir : List Char) (chdirOk opendirOk : Bool)
    (entries : List DirEnt) : Int × List Char :=
  if !chdirOk then (-1, orig)
  else if !opendirOk then (-1, dir)
  else if (collectScripts 0 entries).isEmpty then (0, dir)
  else (0, orig)

/-- C6 counterexample: on the `opendir`-failure path and on the
no-executable-scripts path the caller's working directory is NOT restored:
called from `/root` on directory `/etc/rc.d`, `run_parts` returns with the
cwd still `/etc/rc.d` in both cases. -/
theorem run_parts_cwd_leak :
    (run_parts_cwd "/root".toList "/etc/rc.d".toList true false []).2 ≠
      "/root".toList ∧
    (run_parts_cwd "/root".toList "/etc/rc.d".toList true true []).2 ≠
      "/root".toList := by
  constructor <;> decide

/-- C6 amended: the saved working directory is restored only on the path
that ran at least one script; when `chdir(dir)` itself fails the cwd was
never changed, and on the `opendir`-failure and empty-collection paths the
function returns with the cwd left at the target directory. -/
theorem run_parts_cwd_paths (orig dir : List Char) (opendirOk : Bool)
    (entries : List DirEnt) :
    (run_parts_cwd orig dir false opendirOk entries).2 = orig ∧
    (run_parts_cwd orig dir true false entries).2 = dir ∧
    ((collectScripts 0 entries).isEmpty = true →
      (run_parts_cwd orig dir true true entries).2 = dir) ∧
    ((collectScripts 0 entries).isEmpty = false →
      (run_parts_cwd orig dir true true entries).2 = orig) := by
  refine ⟨rfl, rfl, fun h => ?_, fun h => ?_⟩ <;>
    simp [run_parts_cwd, h]

/-- Witness for C6's amended theorem: an empty scan leaves the cwd at the
target, a nonempty one restores it. -/
theorem run_parts_cwd_paths_inst :
    (run_parts_cwd "/root".toList "/etc/rc.d".toList true true []).2 =
      "/etc/rc.d".toList :=
  (run_parts_cwd_paths "/root".toList "/etc/rc.d".toList true []).2.2.1 (by decide)

/-! ### `pidfile_read` (helpers.c lines 151-178)

The file-system state relevant to one call is: NULL argument, file absent
(`fexist` false), file present but unopenable, or present with a byte
content.  `fgets(buf, 16, fp)` reads at most 15 bytes, stopping after a
newline, and fails only on immediate end-of-file.  `strtoul(buf, NULL, 0)`
parses with automatic base detection. -/

/-- ULONG_MAX on the modelled 64-bit platform. -/
def ULONG_MAX : Nat := 2 ^ 64 - 1

/-- Whitespace skipped by `strtoul` (C `isspace`). -/
def isSpaceC (c : Char) : Bool :=
  c = ' ' || c = '\t' || c = '\n' || c = Char.ofNat 11 || c = Char.ofNat 12 ||
    c = '\r'

/-- Numeric value of a digit character in bases up to 36. -/
def digitVal (c : Char) : Option Nat :=
  if '0' ≤ c ∧ c ≤ '9' then some (c.toNat - 48)
  else if 'a' ≤ c ∧ c ≤ 'z' then some (c.toNat - 87)
  else if 'A' ≤ c ∧ c ≤ 'Z' then some (c.toNat - 55)
  else none

/-- Accumulate leading digits of `base` into a magnitude, stopping at the
first non-digit. -/
def accumDigits (base : Nat) : List Char → Nat → Nat
  | [], acc => acc
  | c :: r, acc =>
    match digitVal c with
    | some d => if d < base then accumDigits base r (acc * base + d) else acc
    | none => acc

/-- Whether the next character is a digit of `base` (at least one digit is
required for a conversion to take place). -/
def hasDigit (base : Nat) (s : List Char) : Bool :=
  match s with
  | [] => false
  | c :: _ =>
    match digitVal c with
    | some d => decide (d < base)
    | none => false

/-- Model of `strtoul(s, NULL, 0)`: skip whitespace, optional sign,
automatic base detection (`0x`/`0X` hex, leading `0` octal, else decimal).
Returns the unsigned-long value and whether `errno` was set to `ERANGE`.
With no convertible digits the result is 0 and `errno` stays untouched. -/
def strtoul0 (s : List Char) : Nat × Bool :=
  let s1 := s.dropWhile isSpaceC
  let signAndRest : Bool × List Char :=
    match s1 with
    | '-' :: r => (true, r)
    | '+' :: r => (false, r)
    | _ => (false, s1)
  let neg := signAndRest.1
  let s2 := signAndRest.2
  let magAndValid : Nat × Bool :=
    match s2 with
    | '0' :: x :: r =>
      if x = 'x' || x = 'X' then
        if hasDigit 16 r then (accumDigits 16 r 0, true)
        else (0, true)
      else (accumDigits 8 ('0' :: x :: r) 0, true)
    | _ => if hasDigit 10 s2 then (accumDigits 10 s2 0, true) else (0, false)
  let mag := magAndValid.1
  if !magAndValid.2 then (0, false)
  else if mag > ULONG_MAX then (ULONG_MAX, true)
  else if neg then ((2 ^ 64 - mag % 2 ^ 64) % 2 ^ 64, false)
  else (mag, false)

/-- Truncation of the `unsigned long` conversion result to `pid_t`
(a 32-bit signed int on the modelled platform). -/
def toPid (v : Nat) : Int :=
  let m : Nat := v % 2 ^ 32
  if m < 2 ^ 31 then (m : Int) else (m : Int) - 2 ^ 32

/-- State of the pidfile argument as seen by one `pidfile_read` call. -/
inductive PidfileArg where
  | nullPath
  | missing
  | unreadable
  | file (content : List Char)
  deriving DecidableEq

/-- Model of `fgets(buf, sizeof(buf), fp)` with a 16-byte buffer on a file
whose remaining bytes are `content`: `none` at end-of-file, otherwise up
to 15 bytes, stopping after the first newline. -/
def fgetsTake : Nat → List Char → List Char
  | 0, _ => []
  | _, [] => []
  | n + 1, c :: rest => if c = '\n' then [c] else c :: fgetsTake n rest

def fgets16 (content : List Char) : Option (List Char) :=
  match content with
  | [] => none
  | _ => some (fgetsTake 15 content)

/-- errno value EINVAL set on the NULL-argument path. -/
def EINVAL : Nat := 22

/-- Model of `pidfile_read` (helpers.c lines 151-178): returns the pid and
the errno this function itself assigns (`some EINVAL` on a NULL argument,
otherwise untouched).  An empty file leaves `pid = 0`; a failed
`strtoul` conversion yields value 0; an `ERANGE` overflow trips the
`if (errno) pid = 0` reset. -/
def pidfile_read (arg : PidfileArg) : Int × Option Nat :=
  match arg with
  | .nullPath => (-1, some EINVAL)
  | .missing => (-1, none)
  | .unreadable => (-1, none)
  | .file content =>
    match fgets16 content with
    | none => (0, none)
    | some buf =>
      let r := strtoul0 buf
      if r.2 then (0, none) else (toPid r.1, none)

/-- C7 counterexample: a pidfile whose content is `"1"` is read
successfully and yields pid 1, which is not greater than 1 — the code
never enforces the "success returns a pid greater than one" part of the
claim. -/
theorem pidfile_read_one :
    (pidfile_read (PidfileArg.file ['1'])).1 = 1 ∧
    ¬ (1 < (pidfile_read (PidfileArg.file ['1'])).1) := by
  constructor <;> decide

/-- C7 amended: the failure modes are distinguished as claimed — NULL path
gives (-1, EINVAL), a missing file gives -1, an empty file gives 0, junk
content gives 0 (not an error) — but a successful read returns exactly the
parsed value, with no lower bound: `"42"` gives 42 while `"1"` gives 1. -/
theorem pidfile_read_modes :
    pidfile_read PidfileArg.nullPath = (-1, some EINVAL) ∧
    pidfile_read PidfileArg.missing = (-1, none) ∧
    pidfile_read (PidfileArg.file []) = (0, none) ∧
    (pidfile_read (PidfileArg.file "junk".toList)).1 = 0 ∧
    (pidfile_read (PidfileArg.file "42\n".toList)).1 = 42 ∧
    (pidfile_read (PidfileArg.file ['1'])).1 = 1 := by
  refine ⟨rfl, rfl, rfl, by decide, by decide, by decide⟩

/-! ### `procname_kill` (helpers.c lines 299-343)

The /proc scan is modelled as a list of entries, each carrying the
`d_name` of the /proc subdirectory, the first line of its `status` file
(`none` when the file cannot be opened or yields nothing), and whether the
`kill` call on it succeeds (the process may vanish between the scan and
the signal). -/

/-- C `isdigit`. -/
def isDigitC (c : Char) : Bool := '0' ≤ c && c ≤ '9'

/-- Size_t wrap-around of `strlen(pname) - 1`: when `pname` is empty the
subtraction wraps to `SIZE_MAX`, making the comparison unbounded. -/
def cmpLen (pnameLen : Nat) : Nat := (pnameLen + 2 ^ 64 - 1) % 2 ^ 64

/-- Model of `strncmp(a, b, n)` comparing as unsigned char; the list end
is the NUL terminator, so a string that ends while the other continues
compares as `0 - byte` / `byte - 0`. -/
def strncmp : Nat → List Char → List Char → Int
  | 0, _, _ => 0
  | _ + 1, [], [] => 0
  | _ + 1, [], b :: _ => 0 - (b.toNat : Int)
  | _ + 1, a :: _, [] => (a.toNat : Int) - 0
  | n + 1, a :: as, b :: bs =>
    if a.toNat = b.toNat then strncmp n as bs
    else (a.toNat : Int) - (b.toNat : Int)

/-- One /proc entry as `procname_kill` inspects it. -/
structure ProcEnt where
  dname : List Char
  statusLine : Option (List Char)
  killOk : Bool
  deriving DecidableEq

/-- The match test of helpers.c line 326:
`strncmp(pname, name, strlen(pname) - 1) == 0` with
`pname = line + 6`. -/
def procMatches (line : List Char) (name : List Char) : Bool :=
  let pname := line.drop 6
  decide (strncmp (cmpLen pname.length) pname name = 0)

/-- The readdir loop of `procname_kill`: skip entries whose name does not
start with a digit, skip unreadable status files, and for each match count
the signal deliveries that succeed (`result++` only when `kill` returns
0); a failed `kill` is logged and the scan continues. -/
def procname_kill (name : List Char) : List ProcEnt → Nat → Nat
  | [], result => result
  | e :: rest, result =>
    match e.dname with
    | [] => procname_kill name rest result
    | c :: _ =>
      if !isDigitC c then procname_kill name rest result
      else
        match e.statusLine with
        | none => procname_kill name rest result
        | some line =>
          if procMatches line name then
            if e.killOk then procname_kill name rest (result + 1)
            else procname_kill name rest result
          else procname_kill name rest result

/-- Whether one entry contributes to the returned count. -/
def delivers (name : List Char) (e : ProcEnt) : Bool :=
  (match e.dname with
   | [] => false
   | c :: _ => isDigitC c) &&
  (match e.statusLine with
   | none => false
   | some line => procMatches line name && e.killOk)

/-- C8 counterexample: with one live process named `foo` (status line
`"Name:\tfoo\n"`, kill succeeding) and target name `foobar`,
`procname_kill` delivers the signal and returns 1 even though the target
name `foobar` is not a prefix of the candidate name `foo` — the
comparison length comes from the candidate, not from the target, so the
claimed matching rule (any target that is a prefix of a live process's
name matches) predicts 0 here. -/
theorem procname_kill_candidate_prefix :
    procname_kill "foobar".toList
      [⟨['7'], some "Name:\tfoo\n".toList, true⟩] 0 = 1 ∧
    "foobar".toList.isPrefixOf "foo".toList = false := by
  constructor <;> decide

/-- Char code points determine the character. -/
theorem char_toNat_inj {a b : Char} (h : a.toNat = b.toNat) : a = b := by
  rw [← Char.ofNat_toNat a, h, Char.ofNat_toNat]

/-- For a candidate name read as `cand ++ "\n"`, the comparison length
`strlen(pname) - 1` is exactly the candidate's length. -/
theorem cmpLen_newline (cand : List Char) (h : cand.length < 2 ^ 64) :
    cmpLen (cand ++ ['\n']).length = cand.length := by
  simp only [cmpLen, List.length_append, List.length_cons, List.length_nil]
  omega

/-- Core of the matching rule: comparing the first `|cand|` bytes of
`cand ++ "\n"` against `name` succeeds exactly when the candidate name is
a prefix of the target name. -/
theorem strncmp_pref :
    ∀ cand name : List Char, (∀ x ∈ cand, x.toNat ≠ 0) →
    (strncmp cand.length (cand ++ ['\n']) name = 0 ↔
      cand.isPrefixOf name = true) := by
  intro cand
  induction cand with
  | nil =>
    intro name _
    simp [strncmp, List.isPrefixOf]
  | cons c cs ih =>
    intro name hz
    cases name with
    | nil =>
      simp only [List.cons_append, List.length_cons, strncmp, List.isPrefixOf]
      have hc : c.toNat ≠ 0 := hz c (List.mem_cons_self c cs)
      constructor
      · intro h
        exfalso
        omega
      · intro h
        exact absurd h (by simp)
    | cons d ds =>
      simp only [List.cons_append, List.length_cons, strncmp, List.isPrefixOf,
        Bool.and_eq_true, beq_iff_eq, List.append_eq]
      by_cases hcd : c.toNat = d.toNat
      · rw [if_pos hcd,
          ih ds (fun x hx => hz x (List.mem_cons_of_mem c hx))]
        have : c = d := char_toNat_inj hcd
        simp [this]
      · rw [if_neg hcd]
        constructor
        · intro h
          exfalso
          omega
        · rintro ⟨rfl, -⟩
          exact absurd rfl hcd

/-- One step of the `procname_kill` scan contributes to the count exactly
when the entry `delivers`. -/
theorem procname_kill_step (name : List Char) (e : ProcEnt)
    (rest : List ProcEnt) (acc : Nat) :
    procname_kill name (e :: rest) acc =
      procname_kill name rest (if delivers name e then acc + 1 else acc) := by
  rcases e with ⟨dn, sl, ko⟩
  cases dn with
  | nil => simp [procname_kill, delivers]
  | cons c cs =>
    by_cases hd : isDigitC c
    · cases sl with
      | none => simp [procname_kill, delivers, hd]
      | some line =>
        by_cases hm : procMatches line name
        · cases ko <;> simp [procname_kill, delivers, hd, hm]
        · simp [procname_kill, delivers, hd, hm]
    · simp [procname_kill, delivers, hd]

/-- The scan returns the number of entries that pass every test and whose
`kill` succeeds. -/
theorem procname_kill_count_eq (name : List Char) :
    ∀ (procs : List ProcEnt) (acc : Nat),
    procname_kill name procs acc = acc + (procs.filter (delivers name)).length := by
  intro procs
  induction procs with
  | nil =>
    intro acc
    simp [procname_kill]
  | cons e rest ih =>
    intro acc
    rw [procname_kill_step]
    by_cases hde : delivers name e = true
    · rw [if_pos hde, ih, List.filter_cons_of_pos hde, List.length_cons]
      omega
    · rw [if_neg hde, ih,
        List.filter_cons_of_neg (by simpa using hde)]

/-- C8 amended: the match test trims only the trailing newline of the
candidate's status-file name and compares over a length derived from the
CANDIDATE name, so a match occurs exactly when the candidate's name is a
prefix of the target name (not the other way around); for every match the
signal is sent and the returned value counts the successful deliveries,
a vanished process (failed `kill`) costing only its own delivery. -/
theorem procname_kill_match_rule (cand name : List Char) (procs : List ProcEnt)
    (hz : ∀ x ∈ cand, x.toNat ≠ 0) (hlen : cand.length < 2 ^ 64) :
    (procMatches ("Name:\t".toList ++ (cand ++ ['\n'])) name = true ↔
      cand.isPrefixOf name = true) ∧
    procname_kill name procs 0 = (procs.filter (delivers name)).length := by
  constructor
  · have hdrop : ("Name:\t".toList ++ (cand ++ ['\n'])).drop 6 = cand ++ ['\n'] := by
      simp [String.toList]
    rw [procMatches]
    simp only [hdrop, cmpLen_newline cand hlen, decide_eq_true_eq]
    exact strncmp_pref cand name hz
  · rw [procname_kill_count_eq name procs 0]
    omega

/-- Witness for C8's amended theorem: candidate `foo` matches target
`foobar`, and the count over a one-entry /proc equals the filtered
length. -/
theorem procname_kill_match_rule_inst :
    procMatches ("Name:\t".toList ++ ("foo".toList ++ ['\n'])) "foobar".toList
      = true ∧
    procname_kill "foobar".toList
        [⟨['9'], some "Name:\tbar\n".toList, true⟩] 0 =
      ([⟨['9'], some "Name:\tbar\n".toList, true⟩].filter
        (delivers "foobar".toList)).length :=
  ⟨(procname_kill_match_rule "foo".toList "foobar".toList []
      (by decide) (by decide)).1.mpr (by decide),
   (procname_kill_match_rule "foo".toList "foobar".toList
      [⟨['9'], some "Name:\tbar\n".toList, true⟩]
      (by decide) (by decide)).2⟩

/-! ### Exec-failure status of `run`'s child (C9)

The child's trace ends with `execvp(args[0], args); _exit(1);`: the
`_exit` is reached only when the exec fails, so the status a failed exec
produces is the argument of the trace's final `exitCall`. -/

/-- Exit status the child uses when its `exec` fails: the code of the
final `exitCall` of the child's action trace. -/
def execFailExit (acts : List Action) : Option Nat :=
  match acts.getLast? with
  | some (Action.exitCall n) => some n
  | _ => none

/-- C9 counterexample: the exec-failure status of `run`'s child is 1,
which is NOT reserved — the parent's result for an exec failure
(`exited 1`) is identical to its result for a command that itself exits
with code 1 and to the fixed signal-termination failure code, so the
three cases cannot be distinguished. -/
theorem exec_fail_status_collides :
    execFailExit (run_child_actions 32 true) = some 1 ∧
    run_result (ChildOutcome.exited 1) = 1 ∧
    run_result (ChildOutcome.signaled 15 false) = 1 := by
  refine ⟨?_, by decide, by decide⟩
  decide

/-- C9 amended: on exec failure the child terminates immediately with
status 1 — nonzero, but not reserved: `run`'s result then coincides with
that of a command exiting 1 and with the signal-death code, and is
distinguishable only from exit codes other than 1. -/
theorem exec_fail_status_one (nsig c : Nat) (fpOk : Bool)
    (hc : c < 256) (hne : c ≠ 1) :
    execFailExit (run_child_actions nsig fpOk) = some 1 ∧
    run_result (ChildOutcome.exited 1) = 1 ∧
    run_result (ChildOutcome.exited c) ≠ 1 := by
  refine ⟨?_, by decide, ?_⟩
  · rw [execFailExit, run_child_actions]
    cases fpOk <;>
      simp [List.getLast?_append]
  · simp only [run_result, encodeStatus, run_wait_result, WEXITSTATUS]
    split_ifs <;> omega

/-- Witness for C9's amended theorem at NSIG = 32 and exit code 3. -/
theorem exec_fail_status_one_inst :
    execFailExit (run_child_actions 32 true) = some 1 ∧
    run_result (ChildOutcome.exited 1) = 1 ∧
    run_result (ChildOutcome.exited 3) ≠ 1 :=
  exec_fail_status_one 32 3 true (by decide) (by decide)

/-! ### `run_interactive` (helpers.c lines 491-527) -/

/-- Observable stdio effects of `run_interactive`. -/
inductive IoEv where
  | printDescr
  | redirectToTmp
  | restoreStdio
  | printResult (fail : Bool)
  | replayBuffer
  deriving DecidableEq

/-- Model of `run_interactive`: print the padded description, redirect
stdout/stderr into the tmpfile when one was obtained and debug is off,
call `run`, restore stdio, print `[ OK ]`/`[FAIL]` from the status, replay
the captured buffer — and return the status variable untouched.
`runStatus` is the value the inner `run(cmd)` call returns. -/
def run_interactive (runStatus : Int) (tmpOk debug : Bool) :
    Int × List IoEv :=
  let capture := tmpOk && !debug
  (runStatus,
    [IoEv.printDescr] ++
    (if capture then [IoEv.redirectToTmp] else []) ++
    (if capture then [IoEv.restoreStdio] else []) ++
    [IoEv.printResult (runStatus != 0)] ++
    (if capture then [IoEv.replayBuffer] else []))

/-- C10: `run_interactive` returns exactly the status of its inner `run`
call, whatever the debug flag and whether the scratch tmpfile could be
opened; the progress printing, redirection and replay never alter it. -/
theorem run_interactive_status (runStatus : Int) (tmpOk debug : Bool) :
    (run_interactive runStatus tmpOk debug).1 = runStatus := rfl
